import Mathlib

/-!
Verification of the SortIT file-organization core
(`src/data_processing_common.py`) against its specification.

Python strings are modelled as `List Char` (`PyStr`).  The regex character
classes `\w` and `\s`, and `str.lower`, are modelled on their ASCII
fragments, which is exact for ASCII input; the claims under study do not
depend on non-ASCII code points.  Filesystem state is modelled explicitly
as a record of existing files/directories plus environmental-failure sets,
and fallible operations return `Except`.
-/

/-- Python strings are sequences of characters. -/
abbrev PyStr := List Char

/-- Embed a Lean string literal as a `PyStr`. -/
def lit (s : String) : PyStr := s.data

/-- ASCII model of the regex class `\s` (Python whitespace). -/
def pyIsSpace (c : Char) : Bool :=
  c = ' ' || c = '\t' || c = '\n' || c = '\r' || c = '\x0b' || c = '\x0c'

/-- ASCII model of the regex class `\w`: alphanumeric or underscore. -/
def isWordChar (c : Char) : Bool := c.isAlphanum || c = '_'

/-- `os.path.join(a, b)` for POSIX paths (two-argument form, as used in the
source): an absolute second component replaces the path; otherwise a
separator is inserted unless `a` is empty or already ends with one. -/
def posixJoin (a b : PyStr) : PyStr :=
  if b.head? = some '/' then b
  else if a = [] ∨ a.getLast? = some '/' then a ++ b
  else a ++ '/' :: b

/-- `os.path.basename`: the part of the path after the last separator. -/
def posixBasename (p : PyStr) : PyStr :=
  (p.reverse.takeWhile (fun c => c ≠ '/')).reverse

/-- `os.path.dirname`: everything up to the last separator, with trailing
separators stripped unless the result consists only of separators. -/
def posixDirname (p : PyStr) : PyStr :=
  let head := (p.reverse.dropWhile (fun c => c ≠ '/')).reverse
  if head = [] ∨ head.all (fun c => c = '/') then head
  else (head.reverse.dropWhile (fun c => c = '/')).reverse

/-- `os.path.splitext` restricted to the basename: the extension starts at
the last dot, unless every character before that dot is itself a dot
(CPython's leading-dot rule, so `.bashrc` has no extension). -/
def splitextBaseName (base : PyStr) : PyStr × PyStr :=
  let rev := base.reverse
  let tl := rev.takeWhile (fun c => c ≠ '.')
  match rev.dropWhile (fun c => c ≠ '.') with
  | [] => (base, [])
  | _ :: pre =>
    if pre.all (fun c => c = '.') then (base, [])
    else (pre.reverse, '.' :: tl.reverse)

/-- `os.path.splitext(p)`: split `p` into root and extension. -/
def posixSplitext (p : PyStr) : PyStr × PyStr :=
  let dir := (p.reverse.dropWhile (fun c => c ≠ '/')).reverse
  let base := (p.reverse.takeWhile (fun c => c ≠ '/')).reverse
  let rootExt := splitextBaseName base
  (dir ++ rootExt.1, rootExt.2)

/-- Decimal digit character. -/
def decDigit (d : Nat) : Char := Char.ofNat (48 + d)

/-- Most-significant-first decimal digits of `n`, with fuel (fuel `≥ n`
suffices, and the callers below always supply enough). -/
def decAux : Nat → Nat → List Char
  | 0, _ => []
  | _ + 1, 0 => []
  | fuel + 1, n + 1 =>
    decAux fuel ((n + 1) / 10) ++ [decDigit ((n + 1) % 10)]

/-- Model of Python `str(n)` for a nonnegative integer: standard decimal
rendering. -/
def decRepr (n : Nat) : PyStr :=
  if n = 0 then ['0'] else decAux n n

/-- Numeric value of a most-significant-first digit string. -/
def valD (l : List Char) : Nat :=
  l.foldl (fun a c => 10 * a + (c.toNat - 48)) 0

theorem valD_append_digit (l : List Char) (c : Char) :
    valD (l ++ [c]) = 10 * valD l + (c.toNat - 48) := by
  simp [valD, List.foldl_append]

theorem decDigit_toNat (d : Nat) (h : d < 10) : (decDigit d).toNat = 48 + d := by
  interval_cases d <;> rfl

theorem valD_decAux (fuel n : Nat) (h : n ≤ fuel) : valD (decAux fuel n) = n := by
  induction fuel generalizing n with
  | zero =>
    interval_cases n
    simp [decAux, valD]
  | succ f ih =>
    match n with
    | 0 => simp [decAux, valD]
    | n + 1 =>
      rw [decAux, valD_append_digit, ih ((n + 1) / 10) ?_,
        decDigit_toNat _ (Nat.mod_lt _ (by norm_num))]
      · omega
      · have := Nat.div_lt_self (Nat.succ_pos n) (show 1 < 10 by norm_num)
        omega

theorem decAux_ne_nil (fuel n : Nat) (hf : 0 < fuel) (hn : 0 < n) :
    decAux fuel n ≠ [] := by
  match fuel, n with
  | f + 1, m + 1 => simp [decAux]

theorem decRepr_ne_nil (n : Nat) : decRepr n ≠ [] := by
  unfold decRepr
  split
  · simp
  · exact decAux_ne_nil n n (by omega) (by omega)

theorem decRepr_injective : Function.Injective decRepr := by
  intro m n h
  unfold decRepr at h
  split at h <;> split at h
  · omega
  · exact absurd (congrArg valD h.symm)
      (by rw [valD_decAux n n le_rfl]; simp [valD]; omega)
  · exact absurd (congrArg valD h)
      (by rw [valD_decAux m m le_rfl]; simp [valD]; omega)
  · have := congrArg valD h
    rwa [valD_decAux m m le_rfl, valD_decAux n n le_rfl] at this

/-! ### Name sanitizer (`sanitize_filename`, source lines 6-33) -/

/-- ASCII-lowercase a character, as `Char.toLower` / Python `str.lower`
do for ASCII input. -/
def toLowerAscii (c : Char) : Char := c.toLower

/-- The stop words removed by the regex in `sanitize_filename`, in pattern
order (all lowercase; the match is case-insensitive). -/
def stopWords : List PyStr :=
  [lit "jpg", lit "jpeg", lit "png", lit "gif", lit "bmp", lit "txt",
   lit "md", lit "pdf", lit "docx", lit "xls", lit "xlsx", lit "csv",
   lit "ppt", lit "pptx", lit "image", lit "picture", lit "photo",
   lit "this", lit "that", lit "these", lit "those", lit "here",
   lit "there", lit "please", lit "note", lit "additional", lit "notes",
   lit "folder", lit "name", lit "sure", lit "heres", lit "a", lit "an",
   lit "the", lit "and", lit "of", lit "in", lit "to", lit "for",
   lit "on", lit "with", lit "your", lit "answer", lit "should",
   lit "be", lit "only", lit "summary", lit "summarize", lit "text",
   lit "category"]

/-- Try each stop word in pattern order at the head of `l`: a word `w`
matches when the first `w.length` characters of `l` lowercase to `w` and
the character after the match (if any) is not a word character (the
trailing `\b`).  Returns the length of the matched word. -/
def matchStopWord (l : PyStr) : Option Nat :=
  stopWords.findSome? fun w =>
    if (l.take w.length).map toLowerAscii = w ∧
       (∀ c ∈ (l.drop w.length).head?, isWordChar c = false) then
      some w.length
    else none

/-- One left-to-right pass of `re.sub(r'\b(stop|words|...)\b', '', name)`
with `re.IGNORECASE`: at every position whose predecessor is not a word
character (the leading `\b`), remove the first stop word that matches
there with a trailing boundary; otherwise keep the character.  `prevWord`
records whether the previous character of the original string was a word
character.  `fuel ≥ length + 1` makes the fuel irrelevant. -/
def removeStopsAux : Nat → Bool → PyStr → PyStr
  | 0, _, l => l
  | _ + 1, _, [] => []
  | fuel + 1, prevWord, c :: cs =>
    if prevWord then c :: removeStopsAux fuel (isWordChar c) cs
    else
      match matchStopWord (c :: cs) with
      | some n => removeStopsAux fuel true ((c :: cs).drop n)
      | none => c :: removeStopsAux fuel (isWordChar c) cs

def removeStops (l : PyStr) : PyStr := removeStopsAux (l.length + 1) false l

/-- A separator for step 4 of the sanitizer: the regex class `[\s_]`. -/
def isSep (c : Char) : Bool := pyIsSpace c || c = '_'

/-- `re.sub(r'[\s_]+', '_', s)`: collapse each maximal run of separators
into a single underscore.  `inRun` records whether the previous character
belonged to a separator run already replaced. -/
def collapseSeps : Bool → PyStr → PyStr
  | _, [] => []
  | inRun, c :: cs =>
    if isSep c then
      if inRun then collapseSeps true cs
      else '_' :: collapseSeps true cs
    else c :: collapseSeps false cs

/-- Strip matching characters from both ends (Python `str.strip`). -/
def stripBoth (p : Char → Bool) (l : PyStr) : PyStr :=
  ((l.dropWhile p).reverse.dropWhile p).reverse

/-- Python `s.split('_')` (keeps empty pieces). -/
def splitUnderscore : PyStr → List PyStr
  | [] => [[]]
  | c :: cs =>
    if c = '_' then [] :: splitUnderscore cs
    else
      match splitUnderscore cs with
      | [] => [[c]]
      | p :: ps => (c :: p) :: ps

/-- Python `'_'.join(ws)`. -/
def joinUnderscore : List PyStr → PyStr
  | [] => []
  | [t] => t
  | t :: ts => t ++ '_' :: joinUnderscore ts

/-- The parameter-independent pipeline of `sanitize_filename` (source
lines 9-29): strip the extension, remove stop words, drop characters
outside `[\w\s]`, strip whitespace, collapse separator runs to `_`,
lowercase, strip underscores, split on `_` and drop empty tokens. -/
def sanitizeTokens (name : PyStr) : List PyStr :=
  let noExt := (posixSplitext name).1
  let noStops := removeStops noExt
  let filtered := stripBoth pyIsSpace
    (noStops.filter fun c => isWordChar c || pyIsSpace c)
  let collapsed := collapseSeps false filtered
  let lowered := collapsed.map toLowerAscii
  let stripped := stripBoth (fun c => c = '_') lowered
  (splitUnderscore stripped).filter (fun w => w ≠ [])

/-- `sanitize_filename(name, max_length=50, max_words=5)`, source lines
6-33: keep at most `max_words` of the sanitized tokens, rejoin with `_`,
truncate to `max_length`; an empty result falls back to `'untitled'`. -/
def sanitize_filename (name : PyStr) (max_length : Nat := 50)
    (max_words : Nat := 5) : PyStr :=
  let limited := joinUnderscore ((sanitizeTokens name).take max_words)
  if limited = [] then lit "untitled" else limited.take max_length

/-! ### Operation records and the three planners -/

/-- The operation record shared by the planners and the executor.  The
`folder_name`/`new_file_name` keys are present only in the dictionaries
built by `compute_operations`, hence `Option`. -/
structure Operation where
  source : PyStr
  destination : PyStr
  link_type : PyStr
  folder_name : Option PyStr := none
  new_file_name : Option PyStr := none
deriving DecidableEq

/-- A modification timestamp, already decomposed the way the source
formats it: `strftime('%Y')` renders the year in decimal and
`strftime('%B')` renders the English month name. -/
structure ModDate where
  year : Nat
  month : Nat
deriving DecidableEq

/-- English month names for `strftime('%B')` (months are numbered 1-12). -/
def monthFullName (m : Nat) : PyStr :=
  match m with
  | 1 => lit "January"   | 2 => lit "February" | 3 => lit "March"
  | 4 => lit "April"     | 5 => lit "May"      | 6 => lit "June"
  | 7 => lit "July"      | 8 => lit "August"   | 9 => lit "September"
  | 10 => lit "October"  | 11 => lit "November" | 12 => lit "December"
  | _ => lit ""

/-- `process_files_by_date` (source lines 35-59).  `os.path.getmtime`
raises when the path does not exist; the modification-time oracle
therefore returns `Option ModDate`, and a `none` propagates out of the
whole planning call as an `Except.error`, exactly as the uncaught Python
exception does. -/
def process_files_by_date (file_paths : List PyStr) (output_path : PyStr)
    (mtime : PyStr → Option ModDate) : Except PyStr (List Operation) :=
  match file_paths with
  | [] => .ok []
  | p :: rest =>
    match mtime p with
    | none => .error (lit "getmtime: No such file or directory: " ++ p)
    | some d =>
      let dir_path := posixJoin (posixJoin output_path (decRepr d.year))
        (monthFullName d.month)
      let op : Operation :=
        { source := p
          destination := posixJoin dir_path (posixBasename p)
          link_type := lit "hardlink" }
      match process_files_by_date rest output_path mtime with
      | .error e => .error e
      | .ok ops => .ok (op :: ops)

/-- The static extension taxonomy of `process_files_by_type` (source
lines 67-147), in source order:
`(main_category, [(subcategory, extensions)])`. -/
def file_categories : List (PyStr × List (PyStr × List PyStr)) :=
  [(lit "images",
    [(lit "raster_images",
      [lit ".jpg", lit ".jpeg", lit ".png", lit ".gif", lit ".bmp",
       lit ".tiff", lit ".tif", lit ".webp", lit ".heic", lit ".heif",
       lit ".raw", lit ".cr2", lit ".nef", lit ".arw"]),
     (lit "vector_images", [lit ".svg", lit ".ai", lit ".eps", lit ".cdr"]),
     (lit "photoshop", [lit ".psd", lit ".psb", lit ".xcf"]),
     (lit "icons", [lit ".ico", lit ".icns"])]),
   (lit "documents",
    [(lit "plain_text",
      [lit ".txt", lit ".md", lit ".markdown", lit ".rst", lit ".rtf",
       lit ".tex", lit ".log"]),
     (lit "word_processing",
      [lit ".doc", lit ".docx", lit ".odt", lit ".pages", lit ".wpd"]),
     (lit "spreadsheets",
      [lit ".xls", lit ".xlsx", lit ".xlsm", lit ".ods", lit ".numbers",
       lit ".csv", lit ".tsv"]),
     (lit "presentations", [lit ".ppt", lit ".pptx", lit ".odp", lit ".key"]),
     (lit "pdf", [lit ".pdf"]),
     (lit "ebooks",
      [lit ".epub", lit ".mobi", lit ".azw", lit ".azw3", lit ".fb2",
       lit ".djvu", lit ".cbr", lit ".cbz"]),
     (lit "technical_docs",
      [lit ".xml", lit ".xhtml", lit ".dtd", lit ".sgml", lit ".yaml",
       lit ".yml", lit ".json", lit ".toml"])]),
   (lit "audio",
    [(lit "music",
      [lit ".mp3", lit ".aac", lit ".flac", lit ".alac", lit ".wav",
       lit ".wma", lit ".ogg", lit ".opus"]),
     (lit "voice", [lit ".m4a", lit ".amr", lit ".aiff", lit ".aif", lit ".aifc"]),
     (lit "production",
      [lit ".mid", lit ".midi", lit ".aup", lit ".sesx", lit ".band"])]),
   (lit "video",
    [(lit "common",
      [lit ".mp4", lit ".mov", lit ".avi", lit ".mkv", lit ".wmv",
       lit ".flv", lit ".webm", lit ".m4v", lit ".mpg", lit ".mpeg",
       lit ".3gp"]),
     (lit "professional",
      [lit ".mxf", lit ".r3d", lit ".braw", lit ".prproj", lit ".fcpx",
       lit ".dav"])]),
   (lit "archives",
    [(lit "common",
      [lit ".zip", lit ".rar", lit ".7z", lit ".tar", lit ".gz",
       lit ".bz2", lit ".xz", lit ".tgz", lit ".iso"])]),
   (lit "code",
    [(lit "scripts",
      [lit ".py", lit ".js", lit ".php", lit ".rb", lit ".pl", lit ".sh",
       lit ".bash", lit ".ps1", lit ".bat", lit ".cmd"]),
     (lit "markup",
      [lit ".html", lit ".htm", lit ".css", lit ".scss", lit ".sass",
       lit ".less"]),
     (lit "compiled",
      [lit ".c", lit ".cpp", lit ".h", lit ".hpp", lit ".cs", lit ".java",
       lit ".go", lit ".rs", lit ".swift"]),
     (lit "data_science", [lit ".ipynb", lit ".r", lit ".rmd", lit ".jl"]),
     (lit "config",
      [lit ".ini", lit ".conf", lit ".cfg", lit ".properties"])]),
   (lit "data",
    [(lit "databases",
      [lit ".db", lit ".sqlite", lit ".sqlite3", lit ".mdb", lit ".accdb",
       lit ".sql", lit ".bak"]),
     (lit "data_formats",
      [lit ".dat", lit ".sav", lit ".bin", lit ".pkl", lit ".parquet",
       lit ".avro", lit ".orc"])]),
   (lit "executables",
    [(lit "programs",
      [lit ".exe", lit ".app", lit ".dmg", lit ".pkg", lit ".deb",
       lit ".rpm", lit ".msi", lit ".apk", lit ".ipa"]),
     (lit "libraries", [lit ".dll", lit ".so", lit ".dylib"])]),
   (lit "design",
    [(lit "3d_models",
      [lit ".obj", lit ".stl", lit ".fbx", lit ".blend", lit ".3ds",
       lit ".c4d", lit ".max"]),
     (lit "cad", [lit ".dwg", lit ".dxf", lit ".skp"]),
     (lit "design", [lit ".indd", lit ".sketch", lit ".fig", lit ".xd"])]),
   (lit "fonts",
    [(lit "font_files",
      [lit ".ttf", lit ".otf", lit ".woff", lit ".woff2", lit ".eot"])]),
   (lit "web",
    [(lit "web_assets",
      [lit ".asp", lit ".aspx", lit ".jsp", lit ".php", lit ".htaccess",
       lit ".htpasswd", lit ".url", lit ".webloc"])]),
   (lit "system",
    [(lit "system_files",
      [lit ".sys", lit ".tmp", lit ".cache", lit ".swp", lit ".bak",
       lit ".old", lit ".log", lit ".lnk", lit ".shortcut", lit ".plist"])])]

/-- Main categories with exactly one subcategory (source lines 149-153). -/
def single_subcategory_mains : List PyStr :=
  (file_categories.filter fun mc => mc.2.length = 1).map Prod.fst

/-- The flattened extension table in insertion order (source lines
155-160). -/
def extensionTableFlat : List (PyStr × (PyStr × PyStr)) :=
  file_categories.flatMap fun mc =>
    mc.2.flatMap fun sub => sub.2.map fun e => (e, (mc.1, sub.1))

/-- `extension_to_category[ext]`: a Python dict built by repeated
assignment, so for duplicate extensions the *last* insertion wins. -/
def extension_to_category (ext : PyStr) : Option (PyStr × PyStr) :=
  (extensionTableFlat.reverse.find? fun e => e.1 = ext).map Prod.snd

/-- The destination folder chosen by `process_files_by_type` for one path
(source lines 167-181): look up the lowercased extension; collapse
single-subcategory main categories to the bare main name; unknown
extensions go to `others`. -/
def typeFolderName (file_path : PyStr) : PyStr :=
  let ext := (posixSplitext file_path).2.map toLowerAscii
  match extension_to_category ext with
  | some ms =>
    if ms.1 ∈ single_subcategory_mains then ms.1
    else posixJoin ms.1 ms.2
  | none => lit "others"

/-- `process_files_by_type` (source lines 61-201): skip hidden files
(basename starting with a dot), then link each file into the folder
chosen by the taxonomy. -/
def process_files_by_type (file_paths : List PyStr) (output_path : PyStr) :
    List Operation :=
  match file_paths with
  | [] => []
  | p :: rest =>
    if (posixBasename p).head? = some '.' then
      process_files_by_type rest output_path
    else
      let dir_path := posixJoin output_path (typeFolderName p)
      let op : Operation :=
        { source := p
          destination := posixJoin dir_path (posixBasename p)
          link_type := lit "hardlink" }
      op :: process_files_by_type rest output_path

/-! ### By-metadata planning (`compute_operations`, source lines 203-242) -/

/-- One input record of by-metadata planning: the source path, the
AI-chosen folder, and the sanitized filename stem. -/
structure MetaRecord where
  file_path : PyStr
  foldername : PyStr
  filename : PyStr
deriving DecidableEq

/-- The candidate file name tried at step `k` of the duplicate-handling
loop: the bare `filename + ext` first, then `filename_k + ext`. -/
def candName (filename ext : PyStr) : Nat → PyStr
  | 0 => filename ++ ext
  | k + 1 => filename ++ '_' :: (decRepr (k + 1) ++ ext)

/-- The `while new_file_path in renamed_files` loop of the source: return
the first index `k` (starting from `start`) whose candidate is not yet
allocated.  The fuel is irrelevant whenever a free candidate exists within
it, which the call sites guarantee (`renamed.length + 1` candidates cannot
all lie in `renamed`, the candidates being pairwise distinct). -/
def findFreeIdx (cand : Nat → PyStr) (renamed : List PyStr) :
    Nat → Nat → Nat
  | 0, start => start
  | fuel + 1, start =>
    if cand start ∈ renamed then findFreeIdx cand renamed fuel (start + 1)
    else start

/-- `compute_operations` with the mutated caller-owned sets made explicit:
returns the operations together with the final `processed_files` and
`renamed_files` sets. -/
def computeOperationsAux (data_list : List MetaRecord) (new_path : PyStr)
    (processed_files renamed_files : List PyStr) :
    List Operation × List PyStr × List PyStr :=
  match data_list with
  | [] => ([], processed_files, renamed_files)
  | d :: rest =>
    if d.file_path ∈ processed_files then
      computeOperationsAux rest new_path processed_files renamed_files
    else
      let processed' := d.file_path :: processed_files
      let ext := (posixSplitext d.file_path).2
      let dir_path := posixJoin new_path d.foldername
      let idx := findFreeIdx (fun k => posixJoin dir_path (candName d.filename ext k))
        renamed_files (renamed_files.length + 1) 0
      let nfn := candName d.filename ext idx
      let dest := posixJoin dir_path nfn
      let op : Operation :=
        { source := d.file_path
          destination := dest
          link_type := lit "hardlink"
          folder_name := some d.foldername
          new_file_name := some nfn }
      let r := computeOperationsAux rest new_path processed' (dest :: renamed_files)
      (op :: r.1, r.2)

/-- `compute_operations(data_list, new_path, renamed_files,
processed_files)`: the returned operation list (the two sets are mutated
in place in the source; `computeOperationsAux` carries them explicitly). -/
def compute_operations (data_list : List MetaRecord) (new_path : PyStr)
    (renamed_files processed_files : List PyStr) : List Operation :=
  (computeOperationsAux data_list new_path processed_files renamed_files).1

/-! ### The executor (`execute_operations`, source lines 244-284) -/

/-- Filesystem state: existing regular files and directories, plus the
environment-determined failure sets (permissions, disk errors, …) that
make `os.makedirs` or a link creation raise. -/
structure FS where
  files : List PyStr
  dirs : List PyStr
  failMakedirs : List PyStr
  failLink : List PyStr
deriving DecidableEq

/-- `os.makedirs(dir_path, exist_ok=True)`: idempotent creation, raising
only on an environmental failure. -/
def fsMakedirs (fs : FS) (d : PyStr) : Except PyStr FS :=
  if d ∈ fs.failMakedirs then .error (lit "Permission denied: " ++ d)
  else .ok { fs with dirs := if d ∈ fs.dirs then fs.dirs else d :: fs.dirs }

/-- `os.link(source, destination)`: raises when the source is missing,
the destination already exists, or the environment fails the call. -/
def fsLink (fs : FS) (src dst : PyStr) : Except PyStr FS :=
  if src ∉ fs.files then .error (lit "No such file or directory: " ++ src)
  else if dst ∈ fs.files then .error (lit "File exists: " ++ dst)
  else if dst ∈ fs.failLink then .error (lit "Operation not permitted: " ++ dst)
  else .ok { fs with files := dst :: fs.files }

/-- `os.symlink(source, destination)`: raises when the destination exists
or the environment fails the call (a dangling symlink is legal). -/
def fsSymlink (fs : FS) (src dst : PyStr) : Except PyStr FS :=
  if dst ∈ fs.files then .error (lit "File exists: " ++ dst)
  else if dst ∈ fs.failLink then .error (lit "Operation not permitted: " ++ dst)
  else .ok { fs with files := dst :: fs.files }

/-- The dry-run message of one operation. -/
def dryRunMessage (op : Operation) : PyStr :=
  lit "Dry run: would create " ++ op.link_type ++ lit " from '" ++
    op.source ++ lit "' to '" ++ op.destination ++ lit "'"

/-- The success message of one operation. -/
def createdMessage (op : Operation) : PyStr :=
  lit "Created " ++ op.link_type ++ lit " from '" ++ op.source ++
    lit "' to '" ++ op.destination ++ lit "'"

/-- The caught-error message of one operation. -/
def errorMessage (op : Operation) (e : PyStr) : PyStr :=
  lit "Error creating " ++ op.link_type ++ lit " from '" ++ op.source ++
    lit "' to '" ++ op.destination ++ lit "': " ++ e

/-- The observable outcome of a batch execution: the final filesystem,
the per-operation messages in order, and how they were routed (printed
to the console, or appended to the log file). -/
structure ExecTrace where
  fs : FS
  messages : List PyStr
  printed : List PyStr
  logged : List PyStr
deriving DecidableEq

/-- Empty trace over a filesystem. -/
def emptyTrace (fs : FS) : ExecTrace :=
  { fs := fs, messages := [], printed := [], logged := [] }

/-- Prepend one routed message to a trace: `silent` with a log file
appends to the log, `silent` without one discards, otherwise the message
is printed (source lines 278-284). -/
def routeMessage (silent : Bool) (log_file : Option PyStr) (m : PyStr)
    (t : ExecTrace) : ExecTrace :=
  { t with
    messages := m :: t.messages
    printed := if silent then t.printed else m :: t.printed
    logged := if silent then match log_file with
        | some _ => m :: t.logged
        | none => t.logged
      else t.logged }

/-- `execute_operations(operations, dry_run, silent, log_file)` over the
filesystem model.  Per operation: in dry-run mode only a message is
produced; otherwise `os.makedirs` runs *outside* the `try` block, so its
failure aborts the whole batch (returned as `some error`), while a link
failure is caught, formatted into the message, and execution continues. -/
def execute_operations (operations : List Operation) (dry_run silent : Bool)
    (log_file : Option PyStr) (fs : FS) : ExecTrace × Option PyStr :=
  match operations with
  | [] => (emptyTrace fs, none)
  | op :: rest =>
    if dry_run then
      let r := execute_operations rest dry_run silent log_file fs
      (routeMessage silent log_file (dryRunMessage op) r.1, r.2)
    else
      let dir_path := posixDirname op.destination
      match fsMakedirs fs dir_path with
      | .error e => (emptyTrace fs, some e)
      | .ok fs1 =>
        match (if op.link_type = lit "hardlink" then fsLink fs1 op.source op.destination
               else fsSymlink fs1 op.source op.destination) with
        | .ok fs2 =>
          let r := execute_operations rest dry_run silent log_file fs2
          (routeMessage silent log_file (createdMessage op) r.1, r.2)
        | .error e =>
          let r := execute_operations rest dry_run silent log_file fs1
          (routeMessage silent log_file (errorMessage op e) r.1, r.2)

/-! ### Executor lemmas -/

theorem fsMakedirs_failMakedirs (fs : FS) (d : PyStr) (fs' : FS)
    (h : fsMakedirs fs d = .ok fs') : fs'.failMakedirs = fs.failMakedirs := by
  unfold fsMakedirs at h
  split at h
  · exact absurd h (by simp)
  · cases h; rfl

theorem fsLink_failMakedirs (fs : FS) (s d : PyStr) (fs' : FS)
    (h : fsLink fs s d = .ok fs') : fs'.failMakedirs = fs.failMakedirs := by
  unfold fsLink at h
  split at h
  · exact absurd h (by simp)
  · split at h
    · exact absurd h (by simp)
    · split at h
      · exact absurd h (by simp)
      · cases h; rfl

theorem fsSymlink_failMakedirs (fs : FS) (s d : PyStr) (fs' : FS)
    (h : fsSymlink fs s d = .ok fs') : fs'.failMakedirs = fs.failMakedirs := by
  unfold fsSymlink at h
  split at h
  · exact absurd h (by simp)
  · split at h
    · exact absurd h (by simp)
    · cases h; rfl

/-- C8: with `dry_run` set, execution touches no filesystem state at all,
raises nothing, and constructs exactly one descriptive message per
operation, whatever the silent/log configuration. -/
theorem c8_dry_run_no_mutation_one_message_per_op (operations : List Operation)
    (silent : Bool) (log_file : Option PyStr) (fs : FS) :
    (execute_operations operations true silent log_file fs).1.fs = fs ∧
    (execute_operations operations true silent log_file fs).1.messages
      = operations.map dryRunMessage ∧
    (execute_operations operations true silent log_file fs).2 = none := by
  induction operations with
  | nil => exact ⟨rfl, rfl, rfl⟩
  | cons op rest ih =>
    refine ⟨?_, ?_, ?_⟩ <;>
      simp [execute_operations, routeMessage, ih.1, ih.2.1, ih.2.2]

/-- C10: with `silent` set and no log file, nothing is ever printed and
nothing is ever logged — every message, error messages included, is
discarded, for every operation list, dry-run setting and filesystem. -/
theorem c10_silent_without_log_discards_all (operations : List Operation)
    (dry_run : Bool) (fs : FS) :
    (execute_operations operations dry_run true none fs).1.printed = [] ∧
    (execute_operations operations dry_run true none fs).1.logged = [] := by
  induction operations generalizing fs with
  | nil => exact ⟨rfl, rfl⟩
  | cons op rest ih =>
    by_cases hd : dry_run = true
    · subst hd
      simp only [execute_operations, if_pos rfl, routeMessage]
      exact ⟨(ih fs).1, (ih fs).2⟩
    · replace hd : dry_run = false := by simpa using hd
      subst hd
      simp only [execute_operations, Bool.false_eq_true, if_false]
      rcases hmk : fsMakedirs fs (posixDirname op.destination) with e | fs1
      · exact ⟨rfl, rfl⟩
      · rcases hlk : (if op.link_type = lit "hardlink"
            then fsLink fs1 op.source op.destination
            else fsSymlink fs1 op.source op.destination) with e | fs2
        · simp only [hlk, routeMessage]
          exact ⟨(ih fs1).1, (ih fs1).2⟩
        · simp only [hlk, routeMessage]
          exact ⟨(ih fs2).1, (ih fs2).2⟩

/-- C1, counterexample: a filesystem error while creating the
destination's parent directory is *not* caught — `os.makedirs` runs
outside the `try` block — so the exception escapes the batch call and the
remaining operations are never attempted: here operation 1 of 2 hits a
makedirs failure and no message is produced for either operation. -/
theorem c1_makedirs_error_escapes :
    (execute_operations
        [{ source := lit "s1", destination := lit "d/f1", link_type := lit "hardlink" },
         { source := lit "s2", destination := lit "e/f2", link_type := lit "hardlink" }]
        false false none
        { files := [lit "s1", lit "s2"], dirs := [],
          failMakedirs := [lit "d"], failLink := [] }).2 ≠ none ∧
    (execute_operations
        [{ source := lit "s1", destination := lit "d/f1", link_type := lit "hardlink" },
         { source := lit "s2", destination := lit "e/f2", link_type := lit "hardlink" }]
        false false none
        { files := [lit "s1", lit "s2"], dirs := [],
          failMakedirs := [lit "d"], failLink := [] }).1.messages = [] := by
  decide

/-- C1, amended: provided no operation's destination parent directory hits
a makedirs failure, `execute_operations` lets no exception escape and
attempts every operation in list order — any error while creating the
link itself is caught, turned into that operation's message, and
execution continues, so each operation contributes exactly one message. -/
theorem c1_link_errors_contained (operations : List Operation)
    (dry_run silent : Bool) (log_file : Option PyStr) (fs : FS)
    (h : ∀ op ∈ operations, posixDirname op.destination ∉ fs.failMakedirs) :
    (execute_operations operations dry_run silent log_file fs).2 = none ∧
    (execute_operations operations dry_run silent log_file fs).1.messages.length
      = operations.length := by
  induction operations generalizing fs with
  | nil => exact ⟨rfl, rfl⟩
  | cons op rest ih =>
    by_cases hd : dry_run = true
    · subst hd
      have r := ih fs (fun o ho => h o (List.mem_cons_of_mem _ ho))
      refine ⟨?_, ?_⟩ <;> simp [execute_operations, routeMessage, r.1, r.2]
    · replace hd : dry_run = false := by simpa using hd
      subst hd
      simp only [execute_operations, Bool.false_eq_true, if_false]
      rcases hmk : fsMakedirs fs (posixDirname op.destination) with e | fs1
      · exact absurd hmk (by
          unfold fsMakedirs
          rw [if_neg (h op (List.mem_cons_self _ _))]
          simp)
      · have hfm1 : fs1.failMakedirs = fs.failMakedirs :=
          fsMakedirs_failMakedirs fs _ fs1 hmk
        rcases hlk : (if op.link_type = lit "hardlink"
            then fsLink fs1 op.source op.destination
            else fsSymlink fs1 op.source op.destination) with e | fs2
        · have r := ih fs1 (fun o ho => by
            rw [hfm1]; exact h o (List.mem_cons_of_mem _ ho))
          simp only [hlk, routeMessage]
          exact ⟨r.1, by simp [r.2]⟩
        · have hfm2 : fs2.failMakedirs = fs.failMakedirs := by
            rw [← hfm1]
            split at hlk
            · exact fsLink_failMakedirs fs1 _ _ fs2 hlk
            · exact fsSymlink_failMakedirs fs1 _ _ fs2 hlk
          have r := ih fs2 (fun o ho => by
            rw [hfm2]; exact h o (List.mem_cons_of_mem _ ho))
          simp only [hlk, routeMessage]
          exact ⟨r.1, by simp [r.2]⟩

/-- C1, witness: a batch of three hardlink operations whose second source
is missing — the link error is caught, the call raises nothing, and all
three operations are attempted and produce messages. -/
theorem c1_link_errors_contained_witness :
    (execute_operations
        [{ source := lit "s1", destination := lit "d/f1", link_type := lit "hardlink" },
         { source := lit "missing", destination := lit "d/f2", link_type := lit "hardlink" },
         { source := lit "s3", destination := lit "d/f3", link_type := lit "hardlink" }]
        false false none
        { files := [lit "s1", lit "s3"], dirs := [],
          failMakedirs := [], failLink := [] }).2 = none ∧
    (execute_operations
        [{ source := lit "s1", destination := lit "d/f1", link_type := lit "hardlink" },
         { source := lit "missing", destination := lit "d/f2", link_type := lit "hardlink" },
         { source := lit "s3", destination := lit "d/f3", link_type := lit "hardlink" }]
        false false none
        { files := [lit "s1", lit "s3"], dirs := [],
          failMakedirs := [], failLink := [] }).1.messages.length = 3 :=
  c1_link_errors_contained _ false false none _ (by decide)

/-- C9: by-date planning is all-or-nothing in the source-existence sense —
if the modification time of any listed path cannot be read, the whole
planning call raises (`Except.error`), returning no operations at all,
including none for the paths preceding the missing one. -/
theorem c9_by_date_missing_source_aborts (file_paths : List PyStr)
    (output_path : PyStr) (mtime : PyStr → Option ModDate)
    (h : ∃ p ∈ file_paths, mtime p = none) :
    ∃ e, process_files_by_date file_paths output_path mtime = .error e := by
  induction file_paths with
  | nil => exact absurd h (by simp)
  | cons p rest ih =>
    rw [process_files_by_date]
    rcases hp : mtime p with _ | d
    · exact ⟨_, rfl⟩
    · rcases h with ⟨q, hq, hqn⟩
      rcases List.mem_cons.mp hq with rfl | hq'
      · rw [hp] at hqn; cases hqn
      · rcases ih ⟨q, hq', hqn⟩ with ⟨e, he⟩
        rw [he]
        exact ⟨e, rfl⟩

/-- C9, witness: a two-path batch whose second path has no readable
modification time makes the whole by-date planning call error out. -/
theorem c9_by_date_missing_source_aborts_witness :
    ∃ e, process_files_by_date [lit "a", lit "b"] (lit "out")
        (fun p => if p = lit "a" then some ⟨2024, 1⟩ else none) = .error e :=
  c9_by_date_missing_source_aborts _ _ _ ⟨lit "b", by decide, by decide⟩

/-! ### Sanitizer lemmas -/

theorem removeStopsAux_sublist (fuel : Nat) :
    ∀ (prev : Bool) (l : PyStr), List.Sublist (removeStopsAux fuel prev l) l := by
  induction fuel with
  | zero => exact fun _ l => List.Sublist.refl l
  | succ f ih =>
    intro prev l
    match l with
    | [] => simp [removeStopsAux]
    | c :: cs =>
      rw [removeStopsAux]
      split
      · exact List.Sublist.cons₂ c (ih _ cs)
      · split
        · exact (ih true _).trans (List.drop_sublist _ (c :: cs))
        · exact List.Sublist.cons₂ c (ih _ cs)

theorem stripBoth_mem (p : Char → Bool) (l : PyStr) (c : Char)
    (h : c ∈ stripBoth p l) : c ∈ l := by
  unfold stripBoth at h
  rw [List.mem_reverse] at h
  have h1 : c ∈ (l.dropWhile p).reverse :=
    List.Sublist.mem h (List.dropWhile_sublist _)
  rw [List.mem_reverse] at h1
  exact List.Sublist.mem h1 (List.dropWhile_sublist _)

theorem collapseSeps_chars (l : PyStr) :
    ∀ (b : Bool), (∀ c ∈ l, isWordChar c || pyIsSpace c) →
      ∀ c ∈ collapseSeps b l, isWordChar c = true := by
  induction l with
  | nil => intro b _ c hc; simp [collapseSeps] at hc
  | cons a as ih =>
    intro b hl c hc
    rw [collapseSeps] at hc
    by_cases ha : isSep a = true
    · rw [if_pos ha] at hc
      by_cases hb : b = true
      · rw [if_pos hb] at hc
        exact ih true (fun x hx => hl x (List.mem_cons_of_mem _ hx)) c hc
      · rw [if_neg hb] at hc
        rcases List.mem_cons.mp hc with rfl | hc'
        · decide
        · exact ih true (fun x hx => hl x (List.mem_cons_of_mem _ hx)) c hc'
    · rw [if_neg ha] at hc
      rcases List.mem_cons.mp hc with rfl | hc'
      · have := hl c (List.mem_cons_self _ _)
        have hs : pyIsSpace c = false := by
          rcases Bool.eq_false_or_eq_true (pyIsSpace c) with h | h
          · exact absurd (by simp [isSep, h]) ha
          · exact h
        simpa [hs] using this
      · exact ih false (fun x hx => hl x (List.mem_cons_of_mem _ hx)) c hc'

theorem ofNat_lower_isAlphanum (n : Nat) (h1 : 97 ≤ n) (h2 : n ≤ 122) :
    (Char.ofNat n).isAlphanum = true := by
  interval_cases n <;> decide

theorem isWordChar_toLowerAscii (c : Char) (h : isWordChar c = true) :
    isWordChar (toLowerAscii c) = true := by
  unfold toLowerAscii Char.toLower
  dsimp only
  split
  · rename_i hc
    have h65 : 65 ≤ Char.toNat c := hc.1
    have h90 : Char.toNat c ≤ 90 := hc.2
    have := ofNat_lower_isAlphanum (Char.toNat c + 32) (by omega) (by omega)
    simp [isWordChar, this]
  · exact h

theorem splitUnderscore_ne_nil (l : PyStr) : splitUnderscore l ≠ [] := by
  match l with
  | [] => simp [splitUnderscore]
  | c :: cs =>
    rw [splitUnderscore]
    split
    · simp
    · split
      · simp
      · simp

theorem splitUnderscore_chars (l : PyStr) :
    ∀ w ∈ splitUnderscore l, ∀ c ∈ w, c ∈ l ∧ c ≠ '_' := by
  induction l with
  | nil =>
    intro w hw c hc
    simp [splitUnderscore] at hw
    subst hw
    simp at hc
  | cons a as ih =>
    intro w hw c hc
    rw [splitUnderscore] at hw
    by_cases ha : a = '_'
    · rw [if_pos ha] at hw
      rcases List.mem_cons.mp hw with rfl | hw'
      · simp at hc
      · have := ih w hw' c hc
        exact ⟨List.mem_cons_of_mem _ this.1, this.2⟩
    · rw [if_neg ha] at hw
      rcases hsp : splitUnderscore as with _ | ⟨p, ps⟩
      · exact absurd hsp (splitUnderscore_ne_nil as)
      · rw [hsp] at hw
        rcases List.mem_cons.mp hw with rfl | hw'
        · rcases List.mem_cons.mp hc with rfl | hc'
          · exact ⟨List.mem_cons_self _ _, ha⟩
          · have := ih p (by rw [hsp]; exact List.mem_cons_self _ _) c hc'
            exact ⟨List.mem_cons_of_mem _ this.1, this.2⟩
        · have := ih w (by rw [hsp]; exact List.mem_cons_of_mem _ hw') c hc
          exact ⟨List.mem_cons_of_mem _ this.1, this.2⟩

theorem splitUnderscore_length (l : PyStr) :
    (splitUnderscore l).length = l.count '_' + 1 := by
  induction l with
  | nil => simp [splitUnderscore]
  | cons a as ih =>
    rw [splitUnderscore]
    by_cases ha : a = '_'
    · subst ha
      simp [List.count_cons, ih]
    · rw [if_neg ha]
      rcases hsp : splitUnderscore as with _ | ⟨p, ps⟩
      · exact absurd hsp (splitUnderscore_ne_nil as)
      · rw [hsp] at ih
        simp only [List.length_cons] at ih ⊢
        rw [List.count_cons]
        simp [ha, ih]

theorem joinUnderscore_cons_cons (t t' : PyStr) (ts : List PyStr) :
    joinUnderscore (t :: t' :: ts) = t ++ '_' :: joinUnderscore (t' :: ts) := rfl

theorem joinUnderscore_mem (ws : List PyStr) (c : Char)
    (h : c ∈ joinUnderscore ws) : c = '_' ∨ ∃ w ∈ ws, c ∈ w := by
  induction ws with
  | nil => simp [joinUnderscore] at h
  | cons t ts ih =>
    cases ts with
    | nil => exact Or.inr ⟨t, List.mem_cons_self _ _, h⟩
    | cons t' ts' =>
      rw [joinUnderscore_cons_cons] at h
      rcases List.mem_append.mp h with h1 | h2
      · exact Or.inr ⟨t, List.mem_cons_self _ _, h1⟩
      · rcases List.mem_cons.mp h2 with rfl | h3
        · exact Or.inl rfl
        · rcases ih h3 with h4 | ⟨w, hw, hcw⟩
          · exact Or.inl h4
          · exact Or.inr ⟨w, List.mem_cons_of_mem _ hw, hcw⟩

theorem joinUnderscore_count (ws : List PyStr)
    (h : ∀ w ∈ ws, '_' ∉ w) :
    (joinUnderscore ws).count '_' + 1 = max ws.length 1 := by
  induction ws with
  | nil => simp [joinUnderscore]
  | cons t ts ih =>
    match ts with
    | [] =>
      have : t.count '_' = 0 :=
        List.count_eq_zero.mpr (h t (List.mem_cons_self _ _))
      simp [joinUnderscore, this]
    | t' :: ts' =>
      rw [joinUnderscore_cons_cons]
      have ht : t.count '_' = 0 :=
        List.count_eq_zero.mpr (h t (List.mem_cons_self _ _))
      have ih' := ih (fun w hw => h w (List.mem_cons_of_mem _ hw))
      rw [List.count_append, ht, List.count_cons]
      simp only [List.length_cons] at ih' ⊢
      have hmax : max (ts'.length + 1) 1 = ts'.length + 1 := by omega
      rw [hmax] at ih'
      simp
      omega

/-- Every character of every sanitized token is a word character other
than the underscore. -/
theorem sanitizeTokens_chars (name : PyStr) :
    ∀ w ∈ sanitizeTokens name, ∀ c ∈ w, isWordChar c = true ∧ c ≠ '_' := by
  intro w hw c hc
  simp only [sanitizeTokens] at hw
  rw [List.mem_filter] at hw
  have h1 := splitUnderscore_chars _ w hw.1 c hc
  refine ⟨?_, h1.2⟩
  have h2 := stripBoth_mem _ _ _ h1.1
  rw [List.mem_map] at h2
  obtain ⟨c', hc', rfl⟩ := h2
  apply isWordChar_toLowerAscii
  apply collapseSeps_chars _ false ?_ c' hc'
  intro x hx
  have hx' := stripBoth_mem _ _ _ hx
  rw [List.mem_filter] at hx'
  exact hx'.2

/-- C4, counterexample: with `max_length = 3` and `max_words = 0` the
fallback `'untitled'` is returned unchanged, so the result has 8 > 3
characters and 1 > 0 underscore-joined tokens, refuting the claim for
"every choice of maxLength and maxWords". -/
theorem c4_sanitize_small_limits_violated :
    sanitize_filename (lit "hello") 3 0 = lit "untitled" ∧
    ¬ (sanitize_filename (lit "hello") 3 0).length ≤ 3 ∧
    ¬ (splitUnderscore (sanitize_filename (lit "hello") 3 0)).length ≤ 0 := by
  decide

/-- C4, amended: for `max_length ≥ 8` (so that the fallback token fits)
and `max_words ≥ 1`, `sanitize_filename` returns a non-empty string of at
most `max_length` characters, each an alphanumeric or underscore (in
particular no path separator `/` and no punctuation), consisting of at
most `max_words` underscore-joined tokens; the empty string and an
all-stop-word input return exactly `'untitled'`. -/
theorem c4_sanitize_safe (name : PyStr) (max_length max_words : Nat)
    (hL : 8 ≤ max_length) (hW : 1 ≤ max_words) :
    sanitize_filename name max_length max_words ≠ [] ∧
    (sanitize_filename name max_length max_words).length ≤ max_length ∧
    (∀ c ∈ sanitize_filename name max_length max_words,
      isWordChar c = true ∧ c ≠ '/') ∧
    (splitUnderscore (sanitize_filename name max_length max_words)).length
      ≤ max_words ∧
    sanitize_filename (lit "") max_length max_words = lit "untitled" ∧
    sanitize_filename (lit "the and of") max_length max_words = lit "untitled" := by
  have hempty : sanitize_filename (lit "") max_length max_words = lit "untitled" := by
    have h0 : sanitizeTokens (lit "") = [] := by decide
    simp [sanitize_filename, h0, joinUnderscore]
  have hstop : sanitize_filename (lit "the and of") max_length max_words
      = lit "untitled" := by
    have h0 : sanitizeTokens (lit "the and of") = [] := by decide
    simp [sanitize_filename, h0, joinUnderscore]
  by_cases hl : joinUnderscore ((sanitizeTokens name).take max_words) = []
  · have hr : sanitize_filename name max_length max_words = lit "untitled" := by
      simp only [sanitize_filename]
      rw [if_pos hl]
    refine ⟨by rw [hr]; decide, ?_, ?_, ?_, hempty, hstop⟩
    · rw [hr]
      have : (lit "untitled").length = 8 := by decide
      omega
    · rw [hr]; decide
    · rw [hr]
      have : (splitUnderscore (lit "untitled")).length = 1 := by decide
      omega
  · have hr : sanitize_filename name max_length max_words
        = (joinUnderscore ((sanitizeTokens name).take max_words)).take max_length := by
      simp only [sanitize_filename]
      rw [if_neg hl]
    have hjoin_chars : ∀ c ∈ joinUnderscore ((sanitizeTokens name).take max_words),
        isWordChar c = true := by
      intro c hc
      rcases joinUnderscore_mem _ c hc with rfl | ⟨w, hw, hcw⟩
      · decide
      · exact (sanitizeTokens_chars name w
          (List.Sublist.mem hw (List.take_sublist _ _)) c hcw).1
    refine ⟨?_, ?_, ?_, ?_, hempty, hstop⟩
    · rw [hr]
      intro hnil
      rcases List.take_eq_nil_iff.mp hnil with h | h
      · omega
      · exact hl h
    · rw [hr, List.length_take]
      exact Nat.min_le_left _ _
    · intro c hc
      rw [hr] at hc
      have hmem := List.Sublist.mem hc (List.take_sublist _ _)
      have hwc := hjoin_chars c hmem
      refine ⟨hwc, ?_⟩
      intro hslash
      subst hslash
      exact absurd hwc (by decide)
    · have hnot : ∀ w ∈ (sanitizeTokens name).take max_words, '_' ∉ w :=
        fun w hw hin => (sanitizeTokens_chars name w
          (List.Sublist.mem hw (List.take_sublist _ _)) '_' hin).2 rfl
      have hcnt := joinUnderscore_count _ hnot
      have htk_ne : (sanitizeTokens name).take max_words ≠ [] := by
        intro h
        exact hl (by rw [h]; rfl)
      have htklen1 : 1 ≤ ((sanitizeTokens name).take max_words).length :=
        List.length_pos.mpr htk_ne
      have htkle : ((sanitizeTokens name).take max_words).length ≤ max_words := by
        rw [List.length_take]
        exact Nat.min_le_left _ _
      rw [hr, splitUnderscore_length]
      have hc1 : List.count '_' ((joinUnderscore ((sanitizeTokens name).take max_words)).take max_length)
          ≤ List.count '_' (joinUnderscore ((sanitizeTokens name).take max_words)) :=
        (List.take_sublist _ _).count_le _
      omega

/-- C4, witness: the amended bounds instantiated at the source's default
parameters on a concrete messy input. -/
theorem c4_sanitize_safe_witness :
    sanitize_filename (lit "My Photo of the Beach.jpg") 50 5 ≠ [] ∧
    (sanitize_filename (lit "My Photo of the Beach.jpg") 50 5).length ≤ 50 ∧
    (∀ c ∈ sanitize_filename (lit "My Photo of the Beach.jpg") 50 5,
      isWordChar c = true ∧ c ≠ '/') ∧
    (splitUnderscore (sanitize_filename (lit "My Photo of the Beach.jpg") 50 5)).length
      ≤ 5 ∧
    sanitize_filename (lit "") 50 5 = lit "untitled" ∧
    sanitize_filename (lit "the and of") 50 5 = lit "untitled" :=
  c4_sanitize_safe (lit "My Photo of the Beach.jpg") 50 5 (by decide) (by decide)

/-! ### By-type classification claims -/

/-- C6: the taxonomy's single-subcategory main categories are exactly
archives, fonts, web and system, whose extensions classify to the bare
main-category folder; a multi-subcategory extension like `.jpg` classifies
to `main/sub`; an extension absent from the table classifies to `others`;
and the lookup is case-insensitive: two paths with the same lowercased
extension always classify to the same folder. -/
theorem c6_classification_folders (p q : PyStr) :
    single_subcategory_mains
      = [lit "archives", lit "fonts", lit "web", lit "system"] ∧
    ((posixSplitext p).2.map toLowerAscii = lit ".zip" →
      typeFolderName p = lit "archives") ∧
    ((posixSplitext p).2.map toLowerAscii = lit ".ttf" →
      typeFolderName p = lit "fonts") ∧
    ((posixSplitext p).2.map toLowerAscii = lit ".url" →
      typeFolderName p = lit "web") ∧
    ((posixSplitext p).2.map toLowerAscii = lit ".tmp" →
      typeFolderName p = lit "system") ∧
    ((posixSplitext p).2.map toLowerAscii = lit ".jpg" →
      typeFolderName p = lit "images/raster_images") ∧
    (extension_to_category ((posixSplitext p).2.map toLowerAscii) = none →
      typeFolderName p = lit "others") ∧
    ((posixSplitext p).2.map toLowerAscii = (posixSplitext q).2.map toLowerAscii →
      typeFolderName p = typeFolderName q) := by
  refine ⟨by decide, ?_, ?_, ?_, ?_, ?_, ?_, ?_⟩
  · intro h; simp only [typeFolderName]; rw [h]; decide
  · intro h; simp only [typeFolderName]; rw [h]; decide
  · intro h; simp only [typeFolderName]; rw [h]; decide
  · intro h; simp only [typeFolderName]; rw [h]; decide
  · intro h; simp only [typeFolderName]; rw [h]; decide
  · intro h; simp only [typeFolderName]; rw [h]
  · intro h; simp only [typeFolderName]; rw [h]

/-- C6, witness: the classification evaluated on concrete upper-case
paths, one per single-subcategory category, one multi-subcategory case,
one unknown extension, and one case-insensitivity pair. -/
theorem c6_classification_folders_witness :
    typeFolderName (lit "a.ZIP") = lit "archives" ∧
    typeFolderName (lit "f.TTF") = lit "fonts" ∧
    typeFolderName (lit "w.URL") = lit "web" ∧
    typeFolderName (lit "t.TMP") = lit "system" ∧
    typeFolderName (lit "photo.JPG") = lit "images/raster_images" ∧
    typeFolderName (lit "x.xyz") = lit "others" ∧
    typeFolderName (lit "A.JPG") = typeFolderName (lit "a.jpg") :=
  ⟨(c6_classification_folders (lit "a.ZIP") (lit "a.ZIP")).2.1 (by decide),
   (c6_classification_folders (lit "f.TTF") (lit "f.TTF")).2.2.1 (by decide),
   (c6_classification_folders (lit "w.URL") (lit "w.URL")).2.2.2.1 (by decide),
   (c6_classification_folders (lit "t.TMP") (lit "t.TMP")).2.2.2.2.1 (by decide),
   (c6_classification_folders (lit "photo.JPG") (lit "photo.JPG")).2.2.2.2.2.1 (by decide),
   (c6_classification_folders (lit "x.xyz") (lit "x.xyz")).2.2.2.2.2.2.1 (by decide),
   (c6_classification_folders (lit "A.JPG") (lit "a.jpg")).2.2.2.2.2.2.2 (by decide)⟩

/-- C7: a path whose basename begins with a dot contributes no operation
to by-type planning — hidden files are entirely absent from the returned
list, whatever their extension. -/
theorem c7_hidden_files_excluded (file_paths : List PyStr)
    (output_path p : PyStr) (hp : (posixBasename p).head? = some '.') :
    p ∉ (process_files_by_type file_paths output_path).map Operation.source := by
  induction file_paths with
  | nil => simp [process_files_by_type]
  | cons q rest ih =>
    rw [process_files_by_type]
    split
    · exact ih
    · rename_i hq
      simp only [List.map_cons]
      intro hmem
      rcases List.mem_cons.mp hmem with rfl | h2
      · exact hq hp
      · exact ih h2

/-- C7, witness: a hidden file with a recognized image extension is absent
from the planning output over a batch that contains it. -/
theorem c7_hidden_files_excluded_witness :
    lit ".hidden.jpg" ∉ (process_files_by_type
      [lit ".hidden.jpg", lit "a.jpg"] (lit "out")).map Operation.source :=
  c7_hidden_files_excluded _ _ _ (by decide)

/-! ### Collision-resolution lemmas for `compute_operations` -/

/-- The shape of every extension produced by `splitext`: empty, or
starting with a dot. -/
def extOk (ext : PyStr) : Prop := ext = [] ∨ ∃ t, ext = '.' :: t

theorem splitextBaseName_ext_shape (base : PyStr) :
    extOk (splitextBaseName base).2 := by
  unfold splitextBaseName
  dsimp only
  split
  · exact Or.inl rfl
  · split
    · exact Or.inl rfl
    · exact Or.inr ⟨_, rfl⟩

theorem posixSplitext_ext_shape (p : PyStr) : extOk (posixSplitext p).2 :=
  splitextBaseName_ext_shape _

/-- Two same-stem candidates never disagree on absoluteness: whether a
candidate starts with `/` depends only on the stem (extensions start with
a dot or are empty, and the suffixed candidates insert `_`). -/
theorem candName_slash_iff (s e1 e2 : PyStr) (h1 : extOk e1) (h2 : extOk e2) :
    ∀ (k j : Nat),
      ((candName s e1 k).head? = some '/') ↔ ((candName s e2 j).head? = some '/') := by
  intro k j
  cases s with
  | cons c cs =>
    cases k <;> cases j <;> simp [candName]
  | nil =>
    have hhead : ∀ (e : PyStr), extOk e → ∀ (i : Nat),
        (candName [] e i).head? ≠ some '/' := by
      intro e he i
      cases i with
      | zero =>
        rcases he with rfl | ⟨t, rfl⟩ <;> simp [candName]
      | succ i => simp [candName]
    constructor
    · intro h; exact absurd h (hhead e1 h1 k)
    · intro h; exact absurd h (hhead e2 h2 j)

/-- `posixJoin` with a fixed first component is injective on second
components that agree on absoluteness. -/
theorem posixJoin_inj (d a b : PyStr)
    (hs : (a.head? = some '/') ↔ (b.head? = some '/'))
    (hne : a ≠ b) : posixJoin d a ≠ posixJoin d b := by
  unfold posixJoin
  by_cases ha : a.head? = some '/'
  · rw [if_pos ha, if_pos (hs.mp ha)]
    exact hne
  · have hb : ¬ b.head? = some '/' := fun h => ha (hs.mpr h)
    rw [if_neg ha, if_neg hb]
    by_cases hd : d = [] ∨ d.getLast? = some '/'
    · rw [if_pos hd, if_pos hd]
      intro h
      exact hne (List.append_cancel_left h)
    · rw [if_neg hd, if_neg hd]
      intro h
      have h2 := List.append_cancel_left h
      injection h2 with _ h3
      exact hne h3

/-- The candidate names of the duplicate-handling loop are pairwise
distinct. -/
theorem candName_inj (f e : PyStr) :
    ∀ k j, candName f e k = candName f e j → k = j := by
  intro k j h
  match k, j with
  | 0, 0 => rfl
  | 0, j + 1 =>
    have hlen := congrArg List.length h
    simp [candName] at hlen
    have := List.length_pos.mpr (decRepr_ne_nil (j + 1))
    omega
  | k + 1, 0 =>
    have hlen := congrArg List.length h
    simp [candName] at hlen
    have := List.length_pos.mpr (decRepr_ne_nil (k + 1))
    omega
  | k + 1, j + 1 =>
    simp only [candName] at h
    have h2 := List.append_cancel_left h
    injection h2 with _ h3
    have h4 := List.append_cancel_right h3
    have := decRepr_injective h4
    omega

/-- The candidate destinations of one record are pairwise distinct. -/
theorem candDest_inj (dir f e : PyStr) (hext : extOk e) :
    Function.Injective (fun k => posixJoin dir (candName f e k)) := by
  intro k j h
  by_contra hkj
  exact posixJoin_inj dir _ _ (candName_slash_iff f e e hext hext k j)
    (fun hc => hkj (candName_inj f e k j hc)) h

/-- An injective sequence of candidates whose first `m` values all lie in
`renamed` forces `m ≤ renamed.length`. -/
theorem mem_all_le_length (cand : Nat → PyStr) (renamed : List PyStr)
    (hinj : Function.Injective cand) (m : Nat)
    (hall : ∀ j < m, cand j ∈ renamed) : m ≤ renamed.length := by
  have hnodup : ((List.range m).map cand).Nodup := (List.nodup_range m).map hinj
  have hcard1 : ((List.range m).map cand).toFinset.card = m := by
    rw [List.toFinset_card_of_nodup hnodup]
    simp
  have hsub : ((List.range m).map cand).toFinset ⊆ renamed.toFinset := by
    intro x hx
    rw [List.mem_toFinset, List.mem_map] at hx
    obtain ⟨i, hi, rfl⟩ := hx
    exact List.mem_toFinset.mpr (hall i (List.mem_range.mp hi))
  have hcard2 := Finset.card_le_card hsub
  have hcard3 := List.toFinset_card_le renamed
  omega

/-- Some candidate within the fuel bound is always free. -/
theorem exists_free_cand (cand : Nat → PyStr) (renamed : List PyStr)
    (hinj : Function.Injective cand) :
    ∃ m, m < renamed.length + 1 ∧ cand m ∉ renamed := by
  by_contra hcon
  push_neg at hcon
  have hall : ∀ j < renamed.length + 1, cand j ∈ renamed := fun j hj => hcon j hj
  have := mem_all_le_length cand renamed hinj (renamed.length + 1) hall
  omega

/-- If some candidate within the fuel is free, the loop's result is
free. -/
theorem findFreeIdx_spec (cand : Nat → PyStr) (renamed : List PyStr) :
    ∀ (fuel start : Nat), (∃ m, m < fuel ∧ cand (start + m) ∉ renamed) →
      cand (findFreeIdx cand renamed fuel start) ∉ renamed := by
  intro fuel
  induction fuel with
  | zero =>
    intro start h
    rcases h with ⟨m, hm, _⟩
    omega
  | succ f ih =>
    intro start h
    rw [findFreeIdx]
    split
    · rename_i hmem
      apply ih
      rcases h with ⟨m, hm, hfree⟩
      match m with
      | 0 => exact absurd hmem (by simpa using hfree)
      | m + 1 =>
        refine ⟨m, by omega, ?_⟩
        rw [show start + 1 + m = start + (m + 1) by omega]
        exact hfree
    · rename_i hmem
      exact hmem

/-- The loop returns exactly the first free index. -/
theorem findFreeIdx_eq (cand : Nat → PyStr) (renamed : List PyStr) :
    ∀ (fuel start m : Nat), m < fuel →
      (∀ j < m, cand (start + j) ∈ renamed) → cand (start + m) ∉ renamed →
      findFreeIdx cand renamed fuel start = start + m := by
  intro fuel
  induction fuel with
  | zero => intro start m hm _ _; omega
  | succ f ih =>
    intro start m hm hall hfree
    rw [findFreeIdx]
    split
    · rename_i hmem
      match m with
      | 0 => exact absurd hmem (by simpa using hfree)
      | m + 1 =>
        have := ih (start + 1) m (by omega)
          (fun j hj => by
            rw [show start + 1 + j = start + (j + 1) by omega]
            exact hall (j + 1) (by omega))
          (by rw [show start + 1 + m = start + (m + 1) by omega]; exact hfree)
        rw [this]
        omega
    · rename_i hmem
      match m with
      | 0 => rfl
      | m + 1 => exact absurd (by simpa using hall 0 (by omega)) hmem

/-- The destinations emitted by `computeOperationsAux` are pairwise
distinct and disjoint from the incoming `renamed_files` set. -/
theorem computeOperationsAux_dests (data_list : List MetaRecord) (new_path : PyStr) :
    ∀ processed renamed,
      ((computeOperationsAux data_list new_path processed renamed).1.map
        Operation.destination).Nodup ∧
      ∀ dst ∈ (computeOperationsAux data_list new_path processed renamed).1.map
        Operation.destination, dst ∉ renamed := by
  induction data_list with
  | nil =>
    intro processed renamed
    simp [computeOperationsAux]
  | cons d rest ih =>
    intro processed renamed
    rw [computeOperationsAux]
    split
    · exact ih processed renamed
    · dsimp only
      simp only [List.map_cons]
      have hinj := candDest_inj (posixJoin new_path d.foldername) d.filename
        (posixSplitext d.file_path).2 (posixSplitext_ext_shape d.file_path)
      have hfree : posixJoin (posixJoin new_path d.foldername)
          (candName d.filename (posixSplitext d.file_path).2
            (findFreeIdx (fun k => posixJoin (posixJoin new_path d.foldername)
                (candName d.filename (posixSplitext d.file_path).2 k))
              renamed (renamed.length + 1) 0)) ∉ renamed := by
        obtain ⟨m, h1, h2⟩ := exists_free_cand _ renamed hinj
        exact findFreeIdx_spec
          (fun k => posixJoin (posixJoin new_path d.foldername)
            (candName d.filename (posixSplitext d.file_path).2 k))
          renamed (renamed.length + 1) 0 ⟨m, h1, by simpa using h2⟩
      have ihr := ih (d.file_path :: processed)
        (posixJoin (posixJoin new_path d.foldername)
          (candName d.filename (posixSplitext d.file_path).2
            (findFreeIdx (fun k => posixJoin (posixJoin new_path d.foldername)
                (candName d.filename (posixSplitext d.file_path).2 k))
              renamed (renamed.length + 1) 0)) :: renamed)
      refine ⟨?_, ?_⟩
      · rw [List.nodup_cons]
        exact ⟨fun hmem => (ihr.2 _ hmem) (List.mem_cons_self _ _), ihr.1⟩
      · intro dst hdst
        rcases List.mem_cons.mp hdst with rfl | h2
        · exact hfree
        · exact fun hmem => (ihr.2 dst h2) (List.mem_cons_of_mem _ hmem)

/-- C3, counterexample: by-type planning performs no collision resolution,
so two distinct sources with the same basename and type map to the *same*
destination in a single planning call — the pairwise-distinctness
invariant fails for that strategy. -/
theorem c3_by_type_duplicate_destinations :
    (process_files_by_type [lit "a/x.txt", lit "b/x.txt"] (lit "out")).map
        Operation.destination
      = [lit "out/documents/plain_text/x.txt", lit "out/documents/plain_text/x.txt"] ∧
    ¬ ((process_files_by_type [lit "a/x.txt", lit "b/x.txt"] (lit "out")).map
        Operation.destination).Nodup := by
  decide

/-- C3, amended: the pairwise-distinctness invariant holds for by-metadata
planning — in one `compute_operations` call the emitted destinations are
pairwise distinct and also distinct from every destination already in the
caller-supplied `renamed_files` set, duplicates being renamed with a
numeric suffix before emission.  By-date and by-type planning perform no
collision resolution and can emit duplicate destinations. -/
theorem c3_metadata_destinations_nodup (data_list : List MetaRecord)
    (new_path : PyStr) (renamed_files processed_files : List PyStr) :
    ((compute_operations data_list new_path renamed_files processed_files).map
      Operation.destination).Nodup ∧
    ∀ dst ∈ (compute_operations data_list new_path renamed_files processed_files).map
      Operation.destination, dst ∉ renamed_files :=
  computeOperationsAux_dests data_list new_path processed_files renamed_files

/-- C3, witness: a concrete two-record call against a pre-populated
allocation set, its first destination shown to avoid that set. -/
theorem c3_metadata_destinations_nodup_witness :
    ((compute_operations
        [⟨lit "a.txt", lit "docs", lit "a"⟩, ⟨lit "b.txt", lit "docs", lit "a"⟩]
        (lit "out") [lit "out/docs/other.txt"] []).map Operation.destination).Nodup ∧
    lit "out/docs/a.txt" ∉ [lit "out/docs/other.txt"] :=
  ⟨(c3_metadata_destinations_nodup
      [⟨lit "a.txt", lit "docs", lit "a"⟩, ⟨lit "b.txt", lit "docs", lit "a"⟩]
      (lit "out") [lit "out/docs/other.txt"] []).1,
   (c3_metadata_destinations_nodup
      [⟨lit "a.txt", lit "docs", lit "a"⟩, ⟨lit "b.txt", lit "docs", lit "a"⟩]
      (lit "out") [lit "out/docs/other.txt"] []).2
     (lit "out/docs/a.txt") (by decide)⟩

/-- C5: with the caller-supplied persistent `renamed_files` set already
holding the candidates with suffix indices `0, …, m-1` for a folder, stem
and extension (index 0 is the unsuffixed name, index `k` carries `_k`),
and the candidate at index `m` free, a new record with that folder, stem
and extension is allocated exactly the index-`m` candidate: the counter
continues from the existing allocations instead of reusing a taken
suffix. -/
theorem c5_suffix_counter_continues (new_path folder stem p : PyStr)
    (renamed processed : List PyStr) (m : Nat)
    (hp : p ∉ processed)
    (hall : ∀ j < m, posixJoin (posixJoin new_path folder)
      (candName stem (posixSplitext p).2 j) ∈ renamed)
    (hfree : posixJoin (posixJoin new_path folder)
      (candName stem (posixSplitext p).2 m) ∉ renamed) :
    (compute_operations [⟨p, folder, stem⟩] new_path renamed processed).map
        Operation.destination
      = [posixJoin (posixJoin new_path folder)
          (candName stem (posixSplitext p).2 m)] := by
  have hinj := candDest_inj (posixJoin new_path folder) stem
    (posixSplitext p).2 (posixSplitext_ext_shape p)
  have hm : m ≤ renamed.length := mem_all_le_length _ renamed hinj m hall
  have hidx := findFreeIdx_eq
    (fun k => posixJoin (posixJoin new_path folder) (candName stem (posixSplitext p).2 k))
    renamed (renamed.length + 1) 0 m (by omega)
    (fun j hj => by simpa using hall j hj) (by simpa using hfree)
  simp only [compute_operations, computeOperationsAux]
  rw [if_neg hp]
  dsimp only
  rw [hidx]
  simp

/-- C5, witness: `report.txt` and `report_1.txt` already allocated under
`out/docs` force the next same-stem record to `report_2.txt`. -/
theorem c5_suffix_counter_continues_witness :
    (compute_operations [⟨lit "f.txt", lit "docs", lit "report"⟩] (lit "out")
        [lit "out/docs/report.txt", lit "out/docs/report_1.txt"] []).map
        Operation.destination
      = [posixJoin (posixJoin (lit "out") (lit "docs"))
          (candName (lit "report") (posixSplitext (lit "f.txt")).2 2)] :=
  c5_suffix_counter_continues (lit "out") (lit "docs") (lit "report") (lit "f.txt")
    [lit "out/docs/report.txt", lit "out/docs/report_1.txt"] [] 2
    (by decide) (by decide) (by decide)

/-- Unfolding of one `compute_operations` step on an unprocessed record. -/
theorem computeOperationsAux_cons_not_mem (d : MetaRecord) (rest : List MetaRecord)
    (np : PyStr) (processed renamed : List PyStr) (h : d.file_path ∉ processed) :
    computeOperationsAux (d :: rest) np processed renamed
      = ((({ source := d.file_path
             destination := posixJoin (posixJoin np d.foldername)
               (candName d.filename (posixSplitext d.file_path).2
                 (findFreeIdx (fun k => posixJoin (posixJoin np d.foldername)
                     (candName d.filename (posixSplitext d.file_path).2 k))
                   renamed (renamed.length + 1) 0))
             link_type := lit "hardlink"
             folder_name := some d.foldername
             new_file_name := some (candName d.filename (posixSplitext d.file_path).2
               (findFreeIdx (fun k => posixJoin (posixJoin np d.foldername)
                   (candName d.filename (posixSplitext d.file_path).2 k))
                 renamed (renamed.length + 1) 0)) } : Operation)
          :: (computeOperationsAux rest np (d.file_path :: processed)
              (posixJoin (posixJoin np d.foldername)
                (candName d.filename (posixSplitext d.file_path).2
                  (findFreeIdx (fun k => posixJoin (posixJoin np d.foldername)
                      (candName d.filename (posixSplitext d.file_path).2 k))
                    renamed (renamed.length + 1) 0)) :: renamed)).1),
         (computeOperationsAux rest np (d.file_path :: processed)
            (posixJoin (posixJoin np d.foldername)
              (candName d.filename (posixSplitext d.file_path).2
                (findFreeIdx (fun k => posixJoin (posixJoin np d.foldername)
                    (candName d.filename (posixSplitext d.file_path).2 k))
                  renamed (renamed.length + 1) 0)) :: renamed)).2) := by
  rw [computeOperationsAux, if_neg h]

/-- C2, counterexample: two records sharing folder and stem but with
*different* source extensions collide on nothing — the candidate paths
already differ — so the second destination is emitted unsuffixed, not with
`_1` as the claim requires for every such pair. -/
theorem c2_different_extensions_no_suffix :
    (compute_operations
        [⟨lit "a.txt", lit "docs", lit "report"⟩, ⟨lit "b.md", lit "docs", lit "report"⟩]
        (lit "out") [] []).map Operation.destination
      = [lit "out/docs/report.txt", lit "out/docs/report.md"] ∧
    lit "out/docs/report.md" ≠ lit "out/docs/report_1.md" := by
  decide

/-- C2, amended: for two records with the same folder and stem but
distinct source paths, the first destination is the unsuffixed
`folder/stem + ext1`; the second destination carries the `_1` suffix
exactly when the second extension equals the first (so that its
unsuffixed candidate collides), and is emitted unsuffixed otherwise; in
both cases the two destinations differ. -/
theorem c2_meta_same_stem_second_distinct (new_path f s p1 p2 : PyStr)
    (hne : p1 ≠ p2) :
    ((posixSplitext p2).2 = (posixSplitext p1).2 →
      (compute_operations [⟨p1, f, s⟩, ⟨p2, f, s⟩] new_path [] []).map
          Operation.destination
        = [posixJoin (posixJoin new_path f) (candName s (posixSplitext p1).2 0),
           posixJoin (posixJoin new_path f) (candName s (posixSplitext p2).2 1)]) ∧
    ((posixSplitext p2).2 ≠ (posixSplitext p1).2 →
      (compute_operations [⟨p1, f, s⟩, ⟨p2, f, s⟩] new_path [] []).map
          Operation.destination
        = [posixJoin (posixJoin new_path f) (candName s (posixSplitext p1).2 0),
           posixJoin (posixJoin new_path f) (candName s (posixSplitext p2).2 0)]) ∧
    (∀ d1 d2, (compute_operations [⟨p1, f, s⟩, ⟨p2, f, s⟩] new_path [] []).map
          Operation.destination = [d1, d2] → d1 ≠ d2) := by
  have hext1 := posixSplitext_ext_shape p1
  have hext2 := posixSplitext_ext_shape p2
  have hinj1 := candDest_inj (posixJoin new_path f) s (posixSplitext p1).2 hext1
  have hinj2 := candDest_inj (posixJoin new_path f) s (posixSplitext p2).2 hext2
  have h1 := computeOperationsAux_cons_not_mem ⟨p1, f, s⟩ [⟨p2, f, s⟩]
    new_path [] [] (List.not_mem_nil p1)
  dsimp only at h1
  have hidx1 : findFreeIdx (fun k => posixJoin (posixJoin new_path f)
      (candName s (posixSplitext p1).2 k)) [] (List.length ([] : List PyStr) + 1) 0
      = 0 := by
    have := findFreeIdx_eq (fun k => posixJoin (posixJoin new_path f)
        (candName s (posixSplitext p1).2 k)) [] (List.length ([] : List PyStr) + 1)
      0 0 (by simp) (fun j hj => absurd hj (by omega)) (List.not_mem_nil _)
    simpa using this
  rw [hidx1] at h1
  have hp2 : p2 ∉ [p1] := by simpa using Ne.symm hne
  have h2 := computeOperationsAux_cons_not_mem ⟨p2, f, s⟩ [] new_path [p1]
    [posixJoin (posixJoin new_path f) (candName s (posixSplitext p1).2 0)] hp2
  dsimp only at h2
  have hmap : ∀ (i2 : Nat),
      findFreeIdx (fun k => posixJoin (posixJoin new_path f)
        (candName s (posixSplitext p2).2 k))
        [posixJoin (posixJoin new_path f) (candName s (posixSplitext p1).2 0)]
        (List.length [posixJoin (posixJoin new_path f)
          (candName s (posixSplitext p1).2 0)] + 1) 0 = i2 →
      (compute_operations [⟨p1, f, s⟩, ⟨p2, f, s⟩] new_path [] []).map
          Operation.destination
        = [posixJoin (posixJoin new_path f) (candName s (posixSplitext p1).2 0),
           posixJoin (posixJoin new_path f) (candName s (posixSplitext p2).2 i2)] := by
    intro i2 hi2
    rw [hi2] at h2
    simp only [compute_operations]
    rw [h1]
    dsimp only
    rw [h2]
    dsimp only
    simp only [computeOperationsAux, List.map_cons, List.map_nil]
  have hconj1 : (posixSplitext p2).2 = (posixSplitext p1).2 →
      (compute_operations [⟨p1, f, s⟩, ⟨p2, f, s⟩] new_path [] []).map
          Operation.destination
        = [posixJoin (posixJoin new_path f) (candName s (posixSplitext p1).2 0),
           posixJoin (posixJoin new_path f) (candName s (posixSplitext p2).2 1)] := by
    intro heq
    apply hmap 1
    have hmem0 : posixJoin (posixJoin new_path f) (candName s (posixSplitext p2).2 0)
        ∈ [posixJoin (posixJoin new_path f) (candName s (posixSplitext p1).2 0)] := by
      rw [heq]
      exact List.mem_singleton.mpr rfl
    have hfree1 : posixJoin (posixJoin new_path f) (candName s (posixSplitext p2).2 1)
        ∉ [posixJoin (posixJoin new_path f) (candName s (posixSplitext p1).2 0)] := by
      intro hmem
      rw [List.mem_singleton] at hmem
      rw [heq] at hmem
      exact absurd (hinj1 hmem) (by omega)
    have := findFreeIdx_eq (fun k => posixJoin (posixJoin new_path f)
        (candName s (posixSplitext p2).2 k))
      [posixJoin (posixJoin new_path f) (candName s (posixSplitext p1).2 0)]
      (List.length [posixJoin (posixJoin new_path f)
        (candName s (posixSplitext p1).2 0)] + 1) 0 1 (by simp)
      (fun j hj => by
        interval_cases j
        simpa using hmem0)
      (by simpa using hfree1)
    simpa using this
  have hconj2 : (posixSplitext p2).2 ≠ (posixSplitext p1).2 →
      (compute_operations [⟨p1, f, s⟩, ⟨p2, f, s⟩] new_path [] []).map
          Operation.destination
        = [posixJoin (posixJoin new_path f) (candName s (posixSplitext p1).2 0),
           posixJoin (posixJoin new_path f) (candName s (posixSplitext p2).2 0)] := by
    intro hneq
    apply hmap 0
    have hne0 : posixJoin (posixJoin new_path f) (candName s (posixSplitext p2).2 0)
        ∉ [posixJoin (posixJoin new_path f) (candName s (posixSplitext p1).2 0)] := by
      intro hmem
      rw [List.mem_singleton] at hmem
      refine posixJoin_inj (posixJoin new_path f)
        (candName s (posixSplitext p2).2 0) (candName s (posixSplitext p1).2 0)
        (candName_slash_iff s _ _ hext2 hext1 0 0) ?_ hmem
      intro hc
      simp only [candName] at hc
      exact hneq (List.append_cancel_left hc)
    have := findFreeIdx_eq (fun k => posixJoin (posixJoin new_path f)
        (candName s (posixSplitext p2).2 k))
      [posixJoin (posixJoin new_path f) (candName s (posixSplitext p1).2 0)]
      (List.length [posixJoin (posixJoin new_path f)
        (candName s (posixSplitext p1).2 0)] + 1) 0 0 (by simp)
      (fun j hj => absurd hj (by omega)) (by simpa using hne0)
    simpa using this
  refine ⟨hconj1, hconj2, ?_⟩
  intro d1 d2 hd
  by_cases heq : (posixSplitext p2).2 = (posixSplitext p1).2
  · rw [hconj1 heq] at hd
    injection hd with hd1 hd'
    injection hd' with hd2 _
    subst hd1; subst hd2
    intro hdd
    rw [heq] at hdd
    exact absurd (hinj1 hdd) (by omega)
  · rw [hconj2 heq] at hd
    injection hd with hd1 hd'
    injection hd' with hd2 _
    subst hd1; subst hd2
    intro hdd
    refine posixJoin_inj (posixJoin new_path f)
      (candName s (posixSplitext p1).2 0) (candName s (posixSplitext p2).2 0)
      (candName_slash_iff s _ _ hext1 hext2 0 0) ?_ hdd
    intro hc
    simp only [candName] at hc
    exact heq (List.append_cancel_left hc.symm)

/-- C2, witness: two same-extension records collide, so the second one
receives the `_1` suffix. -/
theorem c2_meta_same_stem_second_distinct_witness :
    (compute_operations
        [⟨lit "a.txt", lit "docs", lit "report"⟩, ⟨lit "b.txt", lit "docs", lit "report"⟩]
        (lit "out") [] []).map Operation.destination
      = [posixJoin (posixJoin (lit "out") (lit "docs"))
          (candName (lit "report") (posixSplitext (lit "a.txt")).2 0),
         posixJoin (posixJoin (lit "out") (lit "docs"))
          (candName (lit "report") (posixSplitext (lit "b.txt")).2 1)] :=
  (c2_meta_same_stem_second_distinct (lit "out") (lit "docs") (lit "report")
    (lit "a.txt") (lit "b.txt") (by decide)).1 (by decide)
